import Mathlib

/-!
Verification of the multi-part download script (`download_bedrock_appx.js`).

The development shallowly embeds the script's pure logic:

* the byte-range segmentation computed by `multiPartDownload`
  (`partSize`, `segStart`, `segEnd`);
* a functional filesystem (association list from path to contents) over
  which `concatParts`, the segment tasks, the single-stream fallback and
  the orchestrator `downloadWithResume` are modelled;
* the progress monitor's per-tick accumulator (`tickUpdate`, `tickSum`)
  and an event-trace semantics of one transfer (`progressTrace`), in
  which the timer-tick schedule is an explicit parameter since it
  depends on real-time interleaving;
* the `got` request options configured by `downloadPart` and the
  fallback branch (retry limit, timeouts, range header).

JavaScript numbers that hold byte counts are modelled as `Nat` (the
script only ever forms nonnegative integers below 2^53, where JS
arithmetic is exact); `parseInt` results that may be `NaN` are modelled
as `Option Nat` with `none` for `NaN`.  Byte positions and inclusive
range ends are modelled as `Int`, because `end = min((i+1)*partSize - 1,
fileSize - 1)` can be `-1` for an empty object.
-/

/-! ### Segmentation (multiPartDownload, lines 84-94) -/

/-- `const PARTS = 4` (line 9). -/
def PARTS : Nat := 4

/-- `Math.ceil(fileSize / PARTS)` (line 85); on integer inputs this is
`(fileSize + parts - 1) / parts` in exact arithmetic.  The part count is
kept as a parameter, instantiated with `PARTS` by the script. -/
def partSize (fileSize parts : Nat) : Nat := (fileSize + parts - 1) / parts

/-- `const start = i * partSize` (line 89). -/
def segStart (fileSize parts i : Nat) : Int :=
  (i : Int) * (partSize fileSize parts : Int)

/-- `const end = Math.min((i + 1) * partSize - 1, fileSize - 1)` (line 90). -/
def segEnd (fileSize parts i : Nat) : Int :=
  min (((i : Int) + 1) * (partSize fileSize parts : Int) - 1) ((fileSize : Int) - 1)

/-- The inclusive byte range `[start, end]` assigned to segment `i`. -/
def segmentRange (fileSize parts i : Nat) : Finset Int :=
  Finset.Icc (segStart fileSize parts i) (segEnd fileSize parts i)

/-- The list of `(start, end)` pairs built by the loop on lines 88-94,
one entry per loop iteration. -/
def segments (fileSize parts : Nat) : List (Int × Int) :=
  (List.range parts).map (fun i => (segStart fileSize parts i, segEnd fileSize parts i))

/-- The property claimed for the generated segment ranges: exactly
`parts` of them, union exactly `[0, fileSize)`, pairwise disjoint,
consecutive nonempty segments contiguous, and the final segment ending
at the last byte. -/
def SegPartition (n parts : Nat) : Prop :=
  (Finset.range parts).biUnion (fun i => segmentRange n parts i) =
      Finset.Icc 0 ((n : Int) - 1)
  ∧ (∀ i j, i < parts → j < parts → i ≠ j →
      Disjoint (segmentRange n parts i) (segmentRange n parts j))
  ∧ (∀ i, i + 1 < parts → (segmentRange n parts (i + 1)).Nonempty →
      segStart n parts (i + 1) = segEnd n parts i + 1)
  ∧ (segments n parts).length = parts
  ∧ segEnd n parts (parts - 1) = (n : Int) - 1

lemma partSize_pos (n parts : Nat) (hp : 0 < parts) (hn : 0 < n) :
    0 < partSize n parts := by
  unfold partSize
  exact Nat.div_pos (by omega) hp

lemma le_mul_partSize (n parts : Nat) (hp : 0 < parts) :
    n ≤ parts * partSize n parts := by
  unfold partSize
  have h1 := Nat.div_add_mod (n + parts - 1) parts
  have h2 : (n + parts - 1) % parts < parts := Nat.mod_lt _ hp
  omega

lemma seg_union (n parts : Nat) (hp : 0 < parts) :
    (Finset.range parts).biUnion (fun i => segmentRange n parts i) =
      Finset.Icc 0 ((n : Int) - 1) := by
  ext x
  simp only [Finset.mem_biUnion, Finset.mem_range, segmentRange, Finset.mem_Icc,
    segStart, segEnd, le_min_iff]
  constructor
  · rintro ⟨i, _, hxs, _, hxe2⟩
    exact ⟨le_trans (by positivity) hxs, hxe2⟩
  · rintro ⟨hx0, hxn⟩
    have hn : 0 < n := by omega
    have hppos : 0 < partSize n parts := partSize_pos n parts hp hn
    set p := partSize n parts with hpdef
    set m := x.toNat with hmdef
    have hxm : (m : Int) = x := Int.toNat_of_nonneg hx0
    have hmn : m < n := by omega
    refine ⟨m / p, ?_, ?_, ?_, hxn⟩
    · have h1 : m < parts * p := lt_of_lt_of_le hmn (le_mul_partSize n parts hp)
      exact (Nat.div_lt_iff_lt_mul hppos).mpr h1
    · have h2 : m / p * p ≤ m := Nat.div_mul_le_self m p
      calc ((m / p : Nat) : Int) * (p : Int) = ((m / p * p : Nat) : Int) := by push_cast; ring
        _ ≤ (m : Int) := by exact_mod_cast h2
        _ = x := hxm
    · have h3 : m < (m / p + 1) * p := (Nat.div_lt_iff_lt_mul hppos).mp (Nat.lt_succ_self _)
      have h4 : (m : Int) < (((m / p : Nat) : Int) + 1) * (p : Int) := by exact_mod_cast h3
      linarith [hxm]

lemma seg_disjoint (n parts : Nat) (i j : Nat) (hij : i ≠ j) :
    Disjoint (segmentRange n parts i) (segmentRange n parts j) := by
  rw [Finset.disjoint_left]
  intro x hxi hxj
  simp only [segmentRange, Finset.mem_Icc, segStart, segEnd, le_min_iff] at hxi hxj
  obtain ⟨hsi, hei, _⟩ := hxi
  obtain ⟨hsj, hej, _⟩ := hxj
  have hp0 : (0 : Int) ≤ (partSize n parts : Int) := by positivity
  rcases Nat.lt_or_ge i j with h | h
  · have hij1 : ((i : Int) + 1) ≤ (j : Int) := by omega
    have := mul_le_mul_of_nonneg_right hij1 hp0
    linarith
  · have hji : j < i := lt_of_le_of_ne h (Ne.symm hij)
    have hij1 : ((j : Int) + 1) ≤ (i : Int) := by omega
    have := mul_le_mul_of_nonneg_right hij1 hp0
    linarith

lemma seg_contiguous (n parts i : Nat) (h : (segmentRange n parts (i + 1)).Nonempty) :
    segStart n parts (i + 1) = segEnd n parts i + 1 := by
  obtain ⟨x, hx⟩ := h
  simp only [segmentRange, Finset.mem_Icc, segStart, segEnd, le_min_iff] at hx
  obtain ⟨hs, _, he2⟩ := hx
  have hcast : ((i + 1 : Nat) : Int) = (i : Int) + 1 := by push_cast; ring
  rw [hcast] at hs
  have hlt : ((i : Int) + 1) * (partSize n parts : Int) ≤ (n : Int) - 1 := le_trans hs he2
  unfold segStart segEnd
  rw [min_eq_left (by linarith)]
  rw [hcast]
  ring

lemma seg_last (n parts : Nat) (hp : 0 < parts) :
    segEnd n parts (parts - 1) = (n : Int) - 1 := by
  unfold segEnd
  have h1 : (n : Int) ≤ (parts : Int) * (partSize n parts : Int) := by
    exact_mod_cast le_mul_partSize n parts hp
  have h2 : ((parts - 1 : Nat) : Int) + 1 = (parts : Int) := by omega
  rw [h2]
  exact min_eq_right (by linarith)

/-- C1: for every object size and every positive part count, the
segment ranges generated by the loop in `multiPartDownload` are
pairwise disjoint, consecutive nonempty ranges are contiguous and
gapless, their union is exactly `[0, totalSize)`, exactly `parts`
segments are produced, and the final segment's inclusive end is the
last byte (it absorbs the remainder of the ceiling division). -/
theorem multiPartDownload_segment_partition (n parts : Nat) (hp : 0 < parts) :
    SegPartition n parts := by
  refine ⟨seg_union n parts hp, fun i j _ _ hij => seg_disjoint n parts i j hij,
    fun i _ h => seg_contiguous n parts i h, ?_, seg_last n parts hp⟩
  simp [segments]

/-- Witness for C1 at the spec's reference scenario:
`totalSize = 16000000`, `PARTS = 4`. -/
theorem multiPartDownload_segment_partition_witness :
    0 < PARTS ∧ SegPartition 16000000 PARTS :=
  ⟨by decide, multiPartDownload_segment_partition 16000000 PARTS (by decide)⟩

/-! ### Deterministic segment contents

`intList a b` is the byte sequence `a, a+1, ..., b` (empty when
`b < a`); `segContent` is the content a segment holds when its bytes
are exactly the byte positions of its assigned range. -/

def intList (a b : Int) : List Int :=
  (List.range (b + 1 - a).toNat).map (fun k : Nat => a + (k : Int))

def segContent (n parts i : Nat) : List Int :=
  intList (segStart n parts i) (segEnd n parts i)

lemma intList_nil (a b : Int) (h : b + 1 ≤ a) : intList a b = [] := by
  unfold intList
  have hz : (b + 1 - a).toNat = 0 := by omega
  rw [hz]
  rfl

lemma intList_append (a b c : Int) (h1 : a ≤ b + 1) (h2 : b ≤ c) :
    intList a b ++ intList (b + 1) c = intList a c := by
  unfold intList
  have hcb : c + 1 - (b + 1) = c - b := by ring
  rw [hcb]
  have hm : (b + 1 - a).toNat + (c - b).toNat = (c + 1 - a).toNat := by omega
  rw [← hm, List.range_add, List.map_append, List.map_map]
  congr 1
  apply List.map_congr_left
  intro x _
  simp only [Function.comp_apply]
  omega

lemma segContent_join_aux (n parts : Nat) (k : Nat) :
    ((List.range k).map (segContent n parts)).flatten =
      intList 0 (min ((k : Int) * (partSize n parts : Int)) (n : Int) - 1) := by
  induction k with
  | zero =>
    simp only [List.range_zero, List.map_nil, List.flatten_nil, Nat.cast_zero, zero_mul]
    rw [min_eq_left (by positivity)]
    exact (intList_nil 0 (0 - 1) (by omega)).symm
  | succ k ih =>
    rw [List.range_succ, List.map_append, List.flatten_append, ih]
    simp only [List.map_cons, List.map_nil, List.flatten_cons, List.flatten_nil,
      List.append_nil]
    push_cast
    set p := (partSize n parts : Int) with hpdef
    have hp0 : (0 : Int) ≤ p := by rw [hpdef]; positivity
    have hk0 : (0 : Int) ≤ (k : Int) * p := mul_nonneg (by positivity) hp0
    have hkk : (k : Int) * p ≤ ((k : Int) + 1) * p := by nlinarith
    rcases le_or_lt (n : Int) ((k : Int) * p) with hcase | hcase
    · -- the object is already exhausted before segment k: segment k is empty
      have hempty : segContent n parts k = [] := by
        unfold segContent
        apply intList_nil
        unfold segStart segEnd
        rw [← hpdef]
        have hmr := min_le_right (((k : Int) + 1) * p - 1) ((n : Int) - 1)
        omega
      rw [hempty, List.append_nil]
      rw [min_eq_right hcase, min_eq_right (by linarith)]
    · -- segment k starts strictly inside the object
      rw [min_eq_left (le_of_lt hcase)]
      have hcontent : segContent n parts k =
          intList ((k : Int) * p) (min (((k : Int) + 1) * p - 1) ((n : Int) - 1)) := by
        unfold segContent segStart segEnd
        rw [← hpdef]
      rw [hcontent]
      have hb : ((k : Int) * p - 1) + 1 = (k : Int) * p := by ring
      have happ := intList_append 0 ((k : Int) * p - 1)
        (min (((k : Int) + 1) * p - 1) ((n : Int) - 1))
        (by omega) (by rw [le_min_iff]; constructor <;> linarith)
      rw [hb] at happ
      rw [happ]
      congr 1
      rcases le_total (((k : Int) + 1) * p) (n : Int) with h | h
      · rw [min_eq_left (by linarith), min_eq_left h]
      · rw [min_eq_right (by linarith), min_eq_right h]

/-- Concatenating the deterministic contents of all segments, in index
order, yields exactly the byte sequence of `[0, totalSize)`. -/
lemma segContent_join (n parts : Nat) (hp : 0 < parts) :
    ((List.range parts).map (segContent n parts)).flatten = intList 0 ((n : Int) - 1) := by
  rw [segContent_join_aux n parts parts]
  congr 1
  have h1 : (n : Int) ≤ (parts : Int) * (partSize n parts : Int) := by
    exact_mod_cast le_mul_partSize n parts hp
  rw [min_eq_right h1]

/-! ### Functional filesystem

Files are an association list from path to contents (most recent entry
first).  `writeFile` models `fs.createWriteStream` writing a whole
file (the stream truncates any previous content at open);
`deleteFile` models `fs.unlinkSync`; `existsFile` models
`fs.existsSync`. -/

def FS : Type := List (String × List Int)

deriving instance DecidableEq for FS

def readFile (fs : FS) (p : String) : Option (List Int) :=
  (fs.find? (fun e => e.1 == p)).map Prod.snd

def writeFile (fs : FS) (p : String) (c : List Int) : FS :=
  (p, c) :: fs.filter (fun e => !(e.1 == p))

def deleteFile (fs : FS) (p : String) : FS :=
  fs.filter (fun e => !(e.1 == p))

def existsFile (fs : FS) (p : String) : Bool :=
  (readFile fs p).isSome

lemma readFile_filter_ne (fs : List (String × List Int)) (p q : String) (h : q ≠ p) :
    readFile (fs.filter (fun e => !(e.1 == p))) q = readFile fs q := by
  induction fs with
  | nil => rfl
  | cons e t ih =>
    by_cases hep : e.1 = p
    · have hfilter : List.filter (fun e => !(e.1 == p)) (e :: t) =
          List.filter (fun e => !(e.1 == p)) t := by
        simp [List.filter_cons, hep]
      have hq : (e.1 == q) = false := by
        simp only [beq_eq_false_iff_ne, ne_eq, hep]
        exact fun hq => h hq.symm
      have hfind : readFile (e :: t) q = readFile t q := by
        simp [readFile, List.find?_cons, hq]
      rw [hfilter, hfind]
      exact ih
    · have hfilter : List.filter (fun e => !(e.1 == p)) (e :: t) =
          e :: List.filter (fun e => !(e.1 == p)) t := by
        simp [List.filter_cons, hep]
      rw [hfilter]
      by_cases heq : e.1 = q
      · simp [readFile, List.find?_cons, heq]
      · have hq : (e.1 == q) = false := by simp [heq]
        simp only [readFile, List.find?_cons, hq]
        exact ih

lemma readFile_writeFile_self (fs : FS) (p : String) (c : List Int) :
    readFile (writeFile fs p c) p = some c := by
  simp [readFile, writeFile, List.find?_cons]

lemma readFile_writeFile_ne (fs : FS) (p q : String) (c : List Int) (h : q ≠ p) :
    readFile (writeFile fs p c) q = readFile fs q := by
  have h1 : (p == q) = false := by simp; exact fun hq => h hq.symm
  simp only [writeFile, readFile, List.find?_cons, h1]
  exact readFile_filter_ne fs p q h

lemma readFile_deleteFile_ne (fs : FS) (p q : String) (h : q ≠ p) :
    readFile (deleteFile fs p) q = readFile fs q :=
  readFile_filter_ne fs p q h

lemma readFile_deleteFile_self (fs : FS) (p : String) :
    readFile (deleteFile fs p) p = none := by
  unfold deleteFile
  induction fs with
  | nil => rfl
  | cons e t ih =>
    by_cases hep : e.1 = p
    · have hfilter : List.filter (fun e => !(e.1 == p)) (e :: t) =
          List.filter (fun e => !(e.1 == p)) t := by
        simp [List.filter_cons, hep]
      rw [hfilter]
      exact ih
    · have hfilter : List.filter (fun e => !(e.1 == p)) (e :: t) =
          e :: List.filter (fun e => !(e.1 == p)) t := by
        simp [List.filter_cons, hep]
      have hq : (e.1 == p) = false := by simp [hep]
      rw [hfilter]
      simp only [readFile, List.find?_cons, hq]
      exact ih

lemma existsFile_iff_readFile (fs : FS) (p : String) :
    existsFile fs p = false ↔ readFile fs p = none := by
  unfold existsFile
  cases readFile fs p <;> simp

/-! ### Segment Aggregator (concatParts, lines 70-82)

The code opens a write stream on `dest` (truncating it), then for each
part file in order: streams its contents onto the destination stream
and `fs.unlinkSync`s the part.  The loop carries the bytes written so
far (`acc`); the final state writes `dest` holding all appended bytes.
A missing part file makes the read stream error out. -/

inductive DLError
  | segmentFailed
  | readMissing
  | streamFailed
deriving DecidableEq

deriving instance DecidableEq for Except

def concatLoop (dest : String) (fs : FS) (acc : List Int) :
    List String → Except DLError FS
  | [] => .ok (writeFile fs dest acc)
  | part :: rest =>
    match readFile fs part with
    | none => .error .readMissing
    | some c => concatLoop dest (deleteFile fs part) (acc ++ c) rest

def concatParts (fs : FS) (dest : String) (partFiles : List String) :
    Except DLError FS :=
  concatLoop dest (writeFile fs dest []) [] partFiles

/-- The parts processed by `concatLoop`, as (path, contents) pairs.
The loop: reads each, appends, deletes.  Final state: `dest` holds
`acc ++` all contents in order; every part path (other than `dest`)
is gone; all other paths are untouched. -/
lemma concatLoop_spec (dest : String) (ps : List (String × List Int)) :
    ∀ (fs : FS) (acc : List Int),
      (ps.map Prod.fst).Nodup →
      (∀ pr ∈ ps, readFile fs pr.1 = some pr.2) →
      ∃ fs', concatLoop dest fs acc (ps.map Prod.fst) = .ok fs'
        ∧ readFile fs' dest = some (acc ++ (ps.map Prod.snd).flatten)
        ∧ (∀ pr ∈ ps, pr.1 ≠ dest → readFile fs' pr.1 = none)
        ∧ (∀ q, q ≠ dest → (∀ pr ∈ ps, q ≠ pr.1) → readFile fs' q = readFile fs q) := by
  induction ps with
  | nil =>
    intro fs acc _ _
    refine ⟨writeFile fs dest acc, rfl, ?_, ?_, ?_⟩
    · simp [readFile_writeFile_self]
    · intro pr hpr
      exact absurd hpr (List.not_mem_nil pr)
    · intro q hq _
      exact readFile_writeFile_ne fs dest q acc hq
  | cons pr rest ih =>
    intro fs acc hnd hread
    have hprread : readFile fs pr.1 = some pr.2 := hread pr (List.mem_cons_self pr rest)
    have hnd' : (rest.map Prod.fst).Nodup := (List.nodup_cons.mp hnd).2
    have hnotmem : pr.1 ∉ rest.map Prod.fst := (List.nodup_cons.mp hnd).1
    have hread' : ∀ q ∈ rest, readFile (deleteFile fs pr.1) q.1 = some q.2 := by
      intro q hq
      have hne : q.1 ≠ pr.1 := by
        intro heq
        exact hnotmem (heq ▸ List.mem_map_of_mem Prod.fst hq)
      rw [readFile_deleteFile_ne fs pr.1 q.1 hne]
      exact hread q (List.mem_cons_of_mem pr hq)
    obtain ⟨fs', hloop, hdest, hgone, hframe⟩ :=
      ih (deleteFile fs pr.1) (acc ++ pr.2) hnd' hread'
    refine ⟨fs', ?_, ?_, ?_, ?_⟩
    · simpa [concatLoop, hprread] using hloop
    · simpa [List.append_assoc] using hdest
    · intro q hq hqdest
      rcases List.mem_cons.mp hq with heq | hmem
      · subst heq
        by_cases hqr : q.1 ∈ rest.map Prod.fst
        · exact absurd hqr hnotmem
        · have : readFile fs' q.1 = readFile (deleteFile fs q.1) q.1 := by
            apply hframe q.1 hqdest
            intro pr2 hpr2 heq2
            exact hqr (heq2 ▸ List.mem_map_of_mem Prod.fst hpr2)
          rw [this, readFile_deleteFile_self]
      · exact hgone q hmem hqdest
    · intro q hq hqall
      have hq1 : q ≠ pr.1 := hqall pr (List.mem_cons_self pr rest)
      rw [hframe q hq (fun pr2 hpr2 => hqall pr2 (List.mem_cons_of_mem pr hpr2)),
        readFile_deleteFile_ne fs pr.1 q hq1]

/-! ### Part-file naming (line 91: `${dest}.part${i}`) -/

def partName (dest : String) (i : Nat) : String :=
  dest ++ (".part") ++ toString i

/-- The list `partFiles` built by the loop on lines 88-93. -/
def partFilesList (dest : String) : List String :=
  (List.range PARTS).map (partName dest)

lemma string_append_cancel_left (a b c : String) (h : a ++ b = a ++ c) : b = c := by
  have hd : (a ++ b).data = (a ++ c).data := congrArg String.data h
  cases a with
  | mk da =>
    cases b with
    | mk db =>
      cases c with
      | mk dc =>
        have hd2 : da ++ db = da ++ dc := hd
        exact congrArg String.mk (List.append_cancel_left hd2)

lemma partName_ne_dest (dest : String) (i : Nat) : partName dest i ≠ dest := by
  intro h
  have hlen := congrArg String.length h
  rw [partName, String.length_append, String.length_append] at hlen
  have h5 : (".part").length = 5 := by decide
  omega

lemma partName_inj (dest : String) {i j : Nat} (h : toString i ≠ toString j) :
    partName dest i ≠ partName dest j := by
  intro heq
  unfold partName at heq
  rw [String.append_assoc, String.append_assoc] at heq
  have h1 := string_append_cancel_left dest _ _ heq
  exact h (string_append_cancel_left (".part") _ _ h1)

lemma partFiles_nodup (dest : String) : (partFilesList dest).Nodup := by
  have hr : List.range PARTS = [0, 1, 2, 3] := by decide
  unfold partFilesList
  rw [hr]
  simp only [List.map_cons, List.map_nil, List.nodup_cons, List.mem_cons,
    List.mem_singleton, List.not_mem_nil, not_false_iff, and_true, List.nodup_nil,
    List.mem_nil_iff, or_false]
  refine ⟨?_, ?_, ?_⟩
  · push_neg
    exact ⟨partName_inj dest (by decide), partName_inj dest (by decide),
      partName_inj dest (by decide)⟩
  · push_neg
    exact ⟨partName_inj dest (by decide), partName_inj dest (by decide)⟩
  · exact partName_inj dest (by decide)

/-! ### Aggregation correctness (C3 setup)

`segmentFS dest n` is the on-disk state after all four segment
downloads completed with their deterministic contents: file
`dest.partI` holds the byte positions of segment `I`'s range. -/

def segmentFS (dest : String) (n : Nat) : FS :=
  (List.range PARTS).map (fun i => (partName dest i, segContent n PARTS i))

lemma readFile_segmentFS (dest : String) (n i : Nat) (hi : i < PARTS) :
    readFile (segmentFS dest n) (partName dest i) = some (segContent n PARTS i) := by
  have hr : List.range PARTS = [0, 1, 2, 3] := by decide
  have hi4 : i < 4 := hi
  have hne : ∀ j k : Nat, toString j ≠ toString k →
      (partName dest j == partName dest k) = false := by
    intro j k h
    simp [partName_inj dest h]
  unfold segmentFS
  rw [hr]
  interval_cases i <;>
    simp [readFile, List.find?_cons, hne 0 1 (by decide), hne 0 2 (by decide),
      hne 1 2 (by decide), hne 0 3 (by decide), hne 1 3 (by decide), hne 2 3 (by decide)]

/-- The aggregation contract of C3, over the functional filesystem. -/
def AggregationSpec (dest : String) (n : Nat) : Prop :=
  ∃ fs', concatParts (segmentFS dest n) dest (partFilesList dest) = .ok fs'
    ∧ readFile fs' dest = some (intList 0 ((n : Int) - 1))
    ∧ ∀ i, i < PARTS → existsFile fs' (partName dest i) = false

/-- C3: `concatParts`, fed the destination path and the part files in
ascending index order, leaves the destination holding exactly the byte
sequence of `[0, totalSize)` (when each segment file holds the bytes of
its assigned range) and leaves no segment file on disk. -/
theorem concatParts_aggregates (dest : String) (n : Nat) : AggregationSpec dest n := by
  set ps : List (String × List Int) :=
    (List.range PARTS).map (fun i => (partName dest i, segContent n PARTS i)) with hps
  have hfst : ps.map Prod.fst = partFilesList dest := by
    rw [hps, List.map_map]
    rfl
  have hsnd : ps.map Prod.snd = (List.range PARTS).map (segContent n PARTS) := by
    rw [hps, List.map_map]
    rfl
  have hnd : (ps.map Prod.fst).Nodup := by
    rw [hfst]
    exact partFiles_nodup dest
  have hread : ∀ pr ∈ ps, readFile (writeFile (segmentFS dest n) dest []) pr.1 = some pr.2 := by
    intro pr hpr
    rw [hps] at hpr
    obtain ⟨i, hi, hpr⟩ := List.mem_map.mp hpr
    have hilt : i < PARTS := List.mem_range.mp hi
    subst hpr
    rw [readFile_writeFile_ne _ dest _ [] (partName_ne_dest dest i)]
    exact readFile_segmentFS dest n i hilt
  obtain ⟨fs', hloop, hdest, hgone, _⟩ :=
    concatLoop_spec dest ps (writeFile (segmentFS dest n) dest []) [] hnd hread
  rw [hfst] at hloop
  refine ⟨fs', hloop, ?_, ?_⟩
  · rw [hdest, List.nil_append, hsnd, segContent_join n PARTS (by decide)]
  · intro i hi
    rw [existsFile_iff_readFile]
    have hmem : (partName dest i, segContent n PARTS i) ∈ ps := by
      rw [hps]
      exact List.mem_map.mpr ⟨i, List.mem_range.mpr hi, rfl⟩
    exact hgone _ hmem (partName_ne_dest dest i)

/-- Witness for C3 at a small concrete size. -/
theorem concatParts_aggregates_witness :
    AggregationSpec (("out.bin")) 10 :=
  concatParts_aggregates (("out.bin")) 10

/-! ### Segment tasks and the multi-part transfer (lines 84-111)

Each segment task (`downloadPart`) opens a write stream on its part
file and either finishes writing its assigned bytes or terminates with
a stream error after its retry budget; either way the part file exists
on disk with whatever bytes were written.  `Promise.all` rejects as
soon as any task fails; the script then propagates the error without
deleting any part file and without creating the destination file
(`concatParts` is only reached on success).  Tasks are not cancelled,
so the model folds every task's final file state into the filesystem. -/

inductive SegOutcome
  | ok (bytes : List Int)
  | fail (bytesWritten : List Int)
deriving DecidableEq

def segBytes : SegOutcome → List Int
  | .ok b => b
  | .fail b => b

def segOk : SegOutcome → Bool
  | .ok _ => true
  | .fail _ => false

/-- Final filesystem effect of the `PARTS` concurrent `downloadPart`
tasks (lines 88-94): part file `i` holds the bytes its task wrote. -/
def runTasks (fs : FS) (dest : String) (outcome : Nat → SegOutcome) : FS :=
  (List.range PARTS).foldl (fun g i => writeFile g (partName dest i) (segBytes (outcome i))) fs

/-- `Promise.all(tasks)` rejects iff some task failed. -/
def anyFailed (outcome : Nat → SegOutcome) : Bool :=
  (List.range PARTS).any (fun i => !(segOk (outcome i)))

/-- `multiPartDownload` (lines 84-111): run all tasks; on any failure
the error of `Promise.all` propagates with no cleanup; on success
`concatParts` assembles the destination.  The returned pair is the
overall result together with the final filesystem. -/
def multiPartDownload (fs : FS) (dest : String) (outcome : Nat → SegOutcome) :
    Except DLError Unit × FS :=
  let fs1 := runTasks fs dest outcome
  if anyFailed outcome then
    (.error .segmentFailed, fs1)
  else
    match concatParts fs1 dest (partFilesList dest) with
    | .ok fs2 => (.ok (), fs2)
    | .error e => (.error e, fs1)

lemma foldl_write_read_ne (dest : String) (f : Nat → List Int) (l : List Nat) (fs : FS)
    (q : String) (hq : ∀ i ∈ l, q ≠ partName dest i) :
    readFile (l.foldl (fun g i => writeFile g (partName dest i) (f i)) fs) q =
      readFile fs q := by
  induction l generalizing fs with
  | nil => rfl
  | cons a t ih =>
    simp only [List.foldl_cons]
    rw [ih (writeFile fs (partName dest a) (f a))
      (fun i hi => hq i (List.mem_cons_of_mem a hi))]
    exact readFile_writeFile_ne fs (partName dest a) q (f a)
      (hq a (List.mem_cons_self a t))

lemma foldl_write_read_mem (dest : String) (f : Nat → List Int) (l : List Nat) (fs : FS)
    (i : Nat) (hi : i ∈ l) (hnd : (l.map (partName dest)).Nodup) :
    readFile (l.foldl (fun g i => writeFile g (partName dest i) (f i)) fs) (partName dest i) =
      some (f i) := by
  induction l generalizing fs with
  | nil => exact absurd hi (List.not_mem_nil i)
  | cons a t ih =>
    simp only [List.map_cons, List.nodup_cons] at hnd
    simp only [List.foldl_cons]
    rcases List.mem_cons.mp hi with heq | hmem
    · subst heq
      rw [foldl_write_read_ne dest f t (writeFile fs (partName dest i) (f i)) (partName dest i)
        (fun j hj hcontra => hnd.1 (hcontra ▸ List.mem_map_of_mem (partName dest) hj))]
      exact readFile_writeFile_self fs (partName dest i) (f i)
    · exact ih (writeFile fs (partName dest a) (f a)) hmem hnd.2

lemma runTasks_read_other (fs : FS) (dest : String) (outcome : Nat → SegOutcome)
    (q : String) (hq : ∀ i, i < PARTS → q ≠ partName dest i) :
    readFile (runTasks fs dest outcome) q = readFile fs q :=
  foldl_write_read_ne dest _ (List.range PARTS) fs q
    (fun i hi => hq i (List.mem_range.mp hi))

lemma runTasks_read_part (fs : FS) (dest : String) (outcome : Nat → SegOutcome)
    (i : Nat) (hi : i < PARTS) :
    readFile (runTasks fs dest outcome) (partName dest i) = some (segBytes (outcome i)) :=
  foldl_write_read_mem dest _ (List.range PARTS) fs i (List.mem_range.mpr hi)
    (partFiles_nodup dest)

/-- C2 (amended): when some segment task fails, the transfer fails and
the destination file is not created, but every part file — including
those of segments that completed — remains on disk when the error is
surfaced (`multiPartDownload` performs no cleanup). -/
theorem multiPartDownload_failure_no_cleanup (fs : FS) (dest : String)
    (outcome : Nat → SegOutcome) (i : Nat) (hfail : anyFailed outcome = true)
    (hdest : existsFile fs dest = false) (hi : i < PARTS) :
    (multiPartDownload fs dest outcome).1 = .error .segmentFailed
    ∧ existsFile (multiPartDownload fs dest outcome).2 dest = false
    ∧ readFile (multiPartDownload fs dest outcome).2 (partName dest i) =
        some (segBytes (outcome i)) := by
  have hresult : multiPartDownload fs dest outcome =
      (.error .segmentFailed, runTasks fs dest outcome) := by
    unfold multiPartDownload
    rw [hfail]
    rfl
  refine ⟨by rw [hresult], ?_, ?_⟩
  · rw [hresult, existsFile_iff_readFile,
      runTasks_read_other fs dest outcome dest
        (fun j _ h => partName_ne_dest dest j h.symm)]
    exact (existsFile_iff_readFile fs dest).mp hdest
  · rw [hresult]
    exact runTasks_read_part fs dest outcome i hi

def w2Dest : String := "pkg.appx"

def w2Outcome : Nat → SegOutcome :=
  fun i => if i = 2 then .fail [5] else .ok [7, 8]

/-- Witness for C2 (amended): segment 2 of 4 persistently fails. -/
theorem multiPartDownload_failure_no_cleanup_witness :
    anyFailed w2Outcome = true ∧ existsFile ([] : FS) w2Dest = false ∧ 0 < PARTS ∧
    ((multiPartDownload ([] : FS) w2Dest w2Outcome).1 = .error .segmentFailed
     ∧ existsFile (multiPartDownload ([] : FS) w2Dest w2Outcome).2 w2Dest = false
     ∧ readFile (multiPartDownload ([] : FS) w2Dest w2Outcome).2 (partName w2Dest 0) =
         some (segBytes (w2Outcome 0))) :=
  ⟨by decide, by decide, by decide,
    multiPartDownload_failure_no_cleanup ([] : FS) w2Dest w2Outcome 0
      (by decide) (by decide) (by decide)⟩

def cexDest : String := "pkg.appx"

def cexOutcome : Nat → SegOutcome :=
  fun i => if i = 2 then .fail [] else .ok [7]

/-- Counterexample to C2 as stated: with segment index 2 of 4 failing
after its retries, the transfer fails, yet the part file `.part0` of a
completed segment is still on disk after the error is surfaced — the
claim that no `.partN` temporary file remains is false on the code. -/
theorem multiPartDownload_failure_leaves_parts :
    (multiPartDownload ([] : FS) cexDest cexOutcome).1 = .error .segmentFailed
    ∧ existsFile (multiPartDownload ([] : FS) cexDest cexOutcome).2
        (partName cexDest 0) = true := by
  decide

/-! ### Range probe and strategy decision (lines 26-42, 113-128)

`getFileSize` returns `parseInt(res.headers['content-length'], 10)`,
which is `NaN` when the header is absent or has no leading digits;
`NaN` is modelled as `none`.  `parseInt` on a string reads the longest
leading run of decimal digits (header values here carry no sign or
whitespace). -/

def jsParseInt (s : Option String) : Option Nat :=
  match s with
  | none => none
  | some str =>
    let ds := str.data.takeWhile Char.isDigit
    if ds.isEmpty then none
    else some (ds.foldl (fun a c => a * 10 + (c.toNat - 48)) 0)

/-- `getFileSize` (lines 26-33), as a function of the
`content-length` header of the HEAD response. -/
def getFileSize (contentLength : Option String) : Option Nat :=
  jsParseInt contentLength

/-- `10 * 1024 * 1024` (line 123). -/
def THRESHOLD : Nat := 10 * 1024 * 1024

/-- JavaScript truthiness of the `fileSize` number: `NaN` and `0` are
falsy. -/
def jsTruthy : Option Nat → Bool
  | none => false
  | some n => n != 0

/-- `fileSize > 10 * 1024 * 1024` in JavaScript; any comparison with
`NaN` is false. -/
def jsGtThreshold : Option Nat → Bool
  | none => false
  | some n => THRESHOLD < n

/-- The guard on line 123:
`fileSize && rangeSupported && fileSize > 10 * 1024 * 1024`. -/
def chooseMultiPart (fileSize : Option Nat) (rangeSupported : Bool) : Bool :=
  jsTruthy fileSize && rangeSupported && jsGtThreshold fileSize

/-- The strategy rule in the words of the spec (Transfer Orchestrator,
step 2): fallback when `supportsRange` is false or `totalSize` is
below the 10 MiB threshold, multi-segment otherwise.  Kept separate
from `chooseMultiPart` (which is taken from the code) so the two can
be compared. -/
def chooseMultiPartSpec (totalSize : Nat) (supportsRange : Bool) : Bool :=
  supportsRange && !(totalSize < THRESHOLD)

/-- Result of the two HEAD probes: the parsed `content-length` and
whether `accept-ranges: bytes` was advertised. -/
structure ProbeResult where
  fileSize : Option Nat
  rangeSupported : Bool

/-- The single-stream fallback (lines 129-161): one stream written to
`dest`; the file is created as soon as the write stream opens, so it
exists (with the bytes written so far) even when the stream errors
after its retries. -/
def fallbackRun (fs : FS) (dest : String) (out : SegOutcome) : Except DLError Unit × FS :=
  match out with
  | .ok bs => (.ok (), writeFile fs dest bs)
  | .fail bs => (.error .streamFailed, writeFile fs dest bs)

/-- `downloadWithResume` (lines 113-162).  The probe argument is the
joint outcome of the two HEAD requests on lines 118-119: `.error ()`
when either throws (the `catch` on line 120 logs a warning — the
returned `Bool` records that — and leaves `fileSize` undefined and
`rangeSupported` false, so the guard fails and control reaches the
fallback).  `outcome` drives the segment tasks of the multi-part
branch, `fbOut` the fallback stream. -/
def downloadWithResume (fs : FS) (dest : String) (probe : Except Unit ProbeResult)
    (outcome : Nat → SegOutcome) (fbOut : SegOutcome) :
    Except DLError Unit × FS × Bool :=
  match probe with
  | .error _ =>
    let r := fallbackRun fs dest fbOut
    (r.1, r.2, true)
  | .ok pr =>
    if chooseMultiPart pr.fileSize pr.rangeSupported then
      let r := multiPartDownload fs dest outcome
      (r.1, r.2, false)
    else
      let r := fallbackRun fs dest fbOut
      (r.1, r.2, false)

/-- Counterexample to C4 as stated: at exactly `totalSize = 10 MiB`
with range support, the spec's rule ("fallback only when below the
threshold") selects multi-part, but the code's guard
(`fileSize > 10 * 1024 * 1024`, strict) selects the fallback. -/
theorem chooseMultiPart_boundary_counterexample :
    chooseMultiPartSpec THRESHOLD true = true
    ∧ chooseMultiPart (some THRESHOLD) true = false := by
  decide

/-- C4 (amended): the code multi-parts only when `supportsRange` holds
and `totalSize` strictly exceeds 10 MiB; at or below the threshold
(including `totalSize = 5000000` with range support) the single-stream
fallback runs, and the fallback touches no path other than `dest` —
in particular it creates no `.partN` temporary file. -/
theorem downloadWithResume_threshold (n : Nat) (r : Bool) (fs : FS) (dest p : String)
    (i : Nat) (fbOut : SegOutcome) (hp : p ≠ dest)
    (hi : existsFile fs (partName dest i) = false) :
    (chooseMultiPart (some n) r = true ↔ (r = true ∧ THRESHOLD < n))
    ∧ chooseMultiPart (some 5000000) true = false
    ∧ readFile ((fallbackRun fs dest fbOut).2) p = readFile fs p
    ∧ existsFile ((fallbackRun fs dest fbOut).2) (partName dest i) = false := by
  refine ⟨?_, by decide, ?_, ?_⟩
  · unfold chooseMultiPart jsTruthy jsGtThreshold
    constructor
    · intro h
      simp only [Bool.and_eq_true, bne_iff_ne, ne_eq, decide_eq_true_eq] at h
      exact ⟨h.1.2, h.2⟩
    · rintro ⟨hr, hn⟩
      subst hr
      simp only [Bool.and_eq_true, bne_iff_ne, ne_eq, decide_eq_true_eq]
      have : n ≠ 0 := by
        intro h0
        rw [h0] at hn
        exact absurd hn (by decide)
      exact ⟨⟨this, trivial⟩, hn⟩
  · cases fbOut <;> exact readFile_writeFile_ne fs dest p _ hp
  · rw [existsFile_iff_readFile] at hi ⊢
    cases fbOut <;> simp only [fallbackRun] <;>
      rw [readFile_writeFile_ne fs dest (partName dest i) _ (partName_ne_dest dest i)] <;>
      exact hi

def w4Dest : String := "pkg.appx"

def w4Other : String := "other.txt"

/-- Witness for C4 (amended) at `totalSize = 5000000`,
`supportsRange = true`. -/
theorem downloadWithResume_threshold_witness :
    w4Other ≠ w4Dest ∧ existsFile ([] : FS) (partName w4Dest 0) = false ∧
    ((chooseMultiPart (some 5000000) true = true ↔ (true = true ∧ THRESHOLD < 5000000))
     ∧ chooseMultiPart (some 5000000) true = false
     ∧ readFile ((fallbackRun ([] : FS) w4Dest (.ok [1])).2) w4Other =
         readFile ([] : FS) w4Other
     ∧ existsFile ((fallbackRun ([] : FS) w4Dest (.ok [1])).2) (partName w4Dest 0) = false) :=
  ⟨by decide, by decide,
    downloadWithResume_threshold 5000000 true ([] : FS) w4Dest w4Other 0 (.ok [1])
      (by decide) (by decide)⟩

/-- C7: a probe failure (either HEAD request throwing) never aborts
the transfer: `downloadWithResume` logs a warning, degrades to the
single-stream fallback, and — when the fallback stream itself succeeds
— completes normally, writing the destination. -/
theorem downloadWithResume_probe_failure_degrades (fs : FS) (dest : String)
    (outcome : Nat → SegOutcome) (fbOut : SegOutcome) (bs : List Int)
    (hok : fbOut = SegOutcome.ok bs) :
    (downloadWithResume fs dest (.error ()) outcome fbOut).2.2 = true
    ∧ (downloadWithResume fs dest (.error ()) outcome fbOut).1 =
        (fallbackRun fs dest fbOut).1
    ∧ (downloadWithResume fs dest (.error ()) outcome fbOut).1 = .ok ()
    ∧ readFile (downloadWithResume fs dest (.error ()) outcome fbOut).2.1 dest = some bs := by
  subst hok
  refine ⟨rfl, rfl, rfl, ?_⟩
  exact readFile_writeFile_self fs dest bs

def w7Dest : String := "pkg.appx"

/-- Witness for C7: probe error with a fallback stream that succeeds. -/
theorem downloadWithResume_probe_failure_degrades_witness :
    (SegOutcome.ok [3, 4] = SegOutcome.ok [3, 4]) ∧
    ((downloadWithResume ([] : FS) w7Dest (.error ()) (fun _ => .ok []) (.ok [3, 4])).2.2 = true
     ∧ (downloadWithResume ([] : FS) w7Dest (.error ()) (fun _ => .ok []) (.ok [3, 4])).1 =
         (fallbackRun ([] : FS) w7Dest (.ok [3, 4])).1
     ∧ (downloadWithResume ([] : FS) w7Dest (.error ()) (fun _ => .ok []) (.ok [3, 4])).1 = .ok ()
     ∧ readFile (downloadWithResume ([] : FS) w7Dest (.error ()) (fun _ => .ok [])
         (.ok [3, 4])).2.1 w7Dest = some [3, 4]) :=
  ⟨rfl, downloadWithResume_probe_failure_degrades ([] : FS) w7Dest (fun _ => .ok [])
    (.ok [3, 4]) [3, 4] rfl⟩

/-- C9: when the HEAD succeeds but `content-length` is absent or
unparseable, `getFileSize` is `NaN` (`none`); the guard on line 123 is
then false even with `rangeSupported = true`, so the orchestrator
silently runs the fallback, raising no error (no warning is logged
either: the `catch` branch is not taken). -/
theorem downloadWithResume_nan_size_fallback (hdr : Option String) (fs : FS) (dest : String)
    (outcome : Nat → SegOutcome) (bs : List Int) (h : getFileSize hdr = none) :
    chooseMultiPart (getFileSize hdr) true = false
    ∧ (downloadWithResume fs dest (.ok ⟨getFileSize hdr, true⟩) outcome (.ok bs)).1 = .ok ()
    ∧ (downloadWithResume fs dest (.ok ⟨getFileSize hdr, true⟩) outcome (.ok bs)).2.2 = false
    ∧ readFile (downloadWithResume fs dest (.ok ⟨getFileSize hdr, true⟩) outcome
        (.ok bs)).2.1 dest = some bs := by
  rw [h]
  have hchoose : chooseMultiPart none true = false := by decide
  have hres : downloadWithResume fs dest (.ok ⟨none, true⟩) outcome (.ok bs) =
      (.ok (), writeFile fs dest bs, false) := by
    simp [downloadWithResume, hchoose, fallbackRun]
  refine ⟨hchoose, ?_, ?_, ?_⟩
  · rw [hres]
  · rw [hres]
  · rw [hres]
    exact readFile_writeFile_self fs dest bs

def w9Dest : String := "pkg.appx"

def w9Header : String := "unknown"

/-- Witness for C9: a `content-length` header with no leading digit
parses to `NaN`. -/
theorem downloadWithResume_nan_size_fallback_witness :
    getFileSize (some w9Header) = none ∧
    (chooseMultiPart (getFileSize (some w9Header)) true = false
     ∧ (downloadWithResume ([] : FS) w9Dest (.ok ⟨getFileSize (some w9Header), true⟩)
         (fun _ => .ok []) (.ok [2])).1 = .ok ()
     ∧ (downloadWithResume ([] : FS) w9Dest (.ok ⟨getFileSize (some w9Header), true⟩)
         (fun _ => .ok []) (.ok [2])).2.2 = false
     ∧ readFile (downloadWithResume ([] : FS) w9Dest (.ok ⟨getFileSize (some w9Header), true⟩)
         (fun _ => .ok []) (.ok [2])).2.1 w9Dest = some [2]) :=
  ⟨by decide, downloadWithResume_nan_size_fallback (some w9Header) ([] : FS) w9Dest
    (fun _ => .ok []) [2] (by decide)⟩

/-! ### Progress Monitor (lines 95-109)

`downloaded = Array(PARTS).fill(0)`; every 500 ms the interval callback
stats each part file (skipping files that do not exist, so a missing
file keeps its previous entry), sums the entries, and writes the
progress line.  `clearInterval` runs only after `await
Promise.all(tasks)` resolves; when `Promise.all` rejects the exception
propagates past the `clearInterval` call, which therefore never runs.

Real-time behaviour is parameterised: `obs` is the list of per-tick
file-size observations (one function per timer firing before the
transfer settles, `none` for a file that does not exist yet), and
`postObs` the observations of timer firings after a failure (the timer
is still armed then). -/

/-- `downloaded[i] = fs.statSync(partFiles[i]).size` if the file
exists, else the previous entry (lines 99-103). -/
def tickUpdate (sizes : Nat → Option Nat) (d : Nat → Nat) : Nat → Nat :=
  fun i =>
    match sizes i with
    | some s => s
    | none => d i

/-- `let downloaded = Array(PARTS).fill(0)` (line 95). -/
def initialDownloaded : Nat → Nat := fun _ => 0

/-- `sum += downloaded[i]` over the `PARTS` entries (lines 98-104). -/
def tickSum (d : Nat → Nat) : Nat :=
  (List.range PARTS).foldl (fun a i => a + d i) 0

/-- Run the interval callback over a list of per-tick observations,
returning the emitted sums and the final `downloaded` array. -/
def runTicks (obs : List (Nat → Option Nat)) (d : Nat → Nat) :
    List Nat × (Nat → Nat) :=
  match obs with
  | [] => ([], d)
  | o :: rest =>
    let d' := tickUpdate o d
    let r := runTicks rest d'
    (tickSum d' :: r.1, r.2)

/-- Observable events of one `multiPartDownload` run. -/
inductive Event
  | tick (sum : Nat)
  | completed
  | failed
  | timerCleared
  | aggregated
deriving DecidableEq

/-- The event trace of `multiPartDownload` (lines 95-111): ticks while
the tasks run; on success `Promise.all` resolves, `clearInterval` runs
and aggregation follows; on failure the rejection propagates, the
timer is never cleared, and the still-armed interval keeps firing
(`postObs`). -/
def progressTrace (outcome : Nat → SegOutcome) (obs postObs : List (Nat → Option Nat)) :
    List Event :=
  let r := runTicks obs initialDownloaded
  (r.1.map Event.tick) ++
    (if anyFailed outcome then
      Event.failed :: ((runTicks postObs r.2).1.map Event.tick)
    else
      [Event.completed, Event.timerCleared, Event.aggregated])

def isTerminal : Event → Bool
  | .completed => true
  | .failed => true
  | _ => false

def isTick : Event → Bool
  | .tick _ => true
  | _ => false

/-- Whether some tick event occurs after the first terminal
(completed/failed) event of the trace. -/
def tickAfterTerminal : List Event → Bool
  | [] => false
  | e :: rest => if isTerminal e then rest.any isTick else tickAfterTerminal rest

lemma tickAfterTerminal_append_ticks (s : List Nat) (l : List Event) :
    tickAfterTerminal (s.map Event.tick ++ l) = tickAfterTerminal l := by
  induction s with
  | nil => rfl
  | cons a t ih =>
    simp only [List.map_cons, List.cons_append]
    rw [show tickAfterTerminal (Event.tick a :: (t.map Event.tick ++ l)) =
      tickAfterTerminal (t.map Event.tick ++ l) from rfl]
    exact ih

/-- C5 (amended): on a successful multi-part transfer the monitor is
stopped — the timer-cleared event is present and no tick follows the
terminal event; but on a failed transfer `clearInterval` is never
executed (no timer-cleared event occurs), so the interval outlives the
failure and further ticks are possible. -/
theorem progressMonitor_stop_behaviour (outcome : Nat → SegOutcome)
    (obs postObs : List (Nat → Option Nat)) :
    if anyFailed outcome then
      Event.timerCleared ∉ progressTrace outcome obs postObs
    else
      tickAfterTerminal (progressTrace outcome obs postObs) = false
      ∧ Event.timerCleared ∈ progressTrace outcome obs postObs := by
  cases hfail : anyFailed outcome with
  | true =>
    rw [if_pos rfl]
    simp [progressTrace, hfail]
  | false =>
    rw [if_neg (by decide)]
    constructor
    · have htrace : progressTrace outcome obs postObs =
          ((runTicks obs initialDownloaded).1.map Event.tick) ++
            [Event.completed, Event.timerCleared, Event.aggregated] := by
        simp [progressTrace, hfail]
      rw [htrace, tickAfterTerminal_append_ticks]
      rfl
    · simp [progressTrace, hfail]

def cex5Outcome : Nat → SegOutcome :=
  fun i => if i = 2 then .fail [] else .ok [1]

def cex5Obs : Nat → Option Nat := fun _ => none

/-- Counterexample to C5 as stated: a failing transfer whose trace has
a tick event after the terminal `failed` event — the interval was not
cleared, so the claim that no tick occurs after the terminal state in
every execution is false on the code. -/
theorem progressMonitor_tick_after_failure :
    anyFailed cex5Outcome = true
    ∧ progressTrace cex5Outcome [] [cex5Obs] = [Event.failed, Event.tick 0]
    ∧ tickAfterTerminal (progressTrace cex5Outcome [] [cex5Obs]) = true := by
  refine ⟨by decide, ?_, ?_⟩ <;> decide

/-! ### Progress event values (C6, C10)

The progress events delivered to the sink in the multi-part path are
exactly the per-tick sums written on line 105; the values carried by
the tick events of a trace are extracted by `tickValues`. -/

def tickValues (l : List Event) : List Nat :=
  l.filterMap (fun e =>
    match e with
    | .tick s => some s
    | _ => none)

def nonDecreasing : List Nat → Bool
  | [] => true
  | [_] => true
  | a :: b :: t => decide (a ≤ b) && nonDecreasing (b :: t)

/-- One tick's observation never shrinks any `downloaded[i]` entry:
true whenever every part file that exists is at least as large as the
entry recorded for it (files only grow while a transfer runs). -/
def growsAt (d : Nat → Nat) (o : Nat → Option Nat) : Bool :=
  (List.range PARTS).all (fun i => decide (d i ≤ tickUpdate o d i))

/-- `growsAt` holding along a whole observation schedule. -/
def growingFrom (d : Nat → Nat) : List (Nat → Option Nat) → Bool
  | [] => true
  | o :: rest => growsAt d o && growingFrom (tickUpdate o d) rest

lemma foldl_add_mono (l : List Nat) (d d' : Nat → Nat) (h : ∀ i ∈ l, d i ≤ d' i) :
    ∀ a a' : Nat, a ≤ a' →
      l.foldl (fun acc i => acc + d i) a ≤ l.foldl (fun acc i => acc + d' i) a' := by
  induction l with
  | nil => exact fun a a' ha => ha
  | cons x t ih =>
    intro a a' ha
    simp only [List.foldl_cons]
    exact ih (fun i hi => h i (List.mem_cons_of_mem x hi)) (a + d x) (a' + d' x)
      (Nat.add_le_add ha (h x (List.mem_cons_self x t)))

lemma tickSum_mono (d d' : Nat → Nat) (h : ∀ i ∈ List.range PARTS, d i ≤ d' i) :
    tickSum d ≤ tickSum d' :=
  foldl_add_mono (List.range PARTS) d d' h 0 0 (Nat.le_refl 0)

lemma growsAt_le (d : Nat → Nat) (o : Nat → Option Nat) (h : growsAt d o = true) :
    ∀ i ∈ List.range PARTS, d i ≤ tickUpdate o d i := by
  intro i hi
  have := List.all_eq_true.mp h i hi
  exact of_decide_eq_true this

lemma runTicks_nonDecreasing (obs : List (Nat → Option Nat)) :
    ∀ d : Nat → Nat, growingFrom d obs = true →
      nonDecreasing ((runTicks obs d).1) = true
      ∧ (∀ x, ((runTicks obs d).1.head? = some x) → tickSum d ≤ x) := by
  induction obs with
  | nil =>
    intro d _
    exact ⟨rfl, fun x hx => Option.noConfusion hx⟩
  | cons o rest ih =>
    intro d hg
    rw [growingFrom, Bool.and_eq_true] at hg
    obtain ⟨h1, h2⟩ := hg
    obtain ⟨ihnd, ihhead⟩ := ih (tickUpdate o d) h2
    have hsum : tickSum d ≤ tickSum (tickUpdate o d) :=
      tickSum_mono d (tickUpdate o d) (growsAt_le d o h1)
    constructor
    · show nonDecreasing (tickSum (tickUpdate o d) :: (runTicks rest (tickUpdate o d)).1) = true
      cases hrest : (runTicks rest (tickUpdate o d)).1 with
      | nil => rfl
      | cons b t =>
        have hb : tickSum (tickUpdate o d) ≤ b := by
          apply ihhead
          rw [hrest]
          rfl
        rw [nonDecreasing, Bool.and_eq_true, decide_eq_true_eq]
        rw [hrest] at ihnd
        exact ⟨hb, ihnd⟩
    · intro x hx
      have : x = tickSum (tickUpdate o d) := by
        have : ((runTicks (o :: rest) d).1).head? =
            some (tickSum (tickUpdate o d)) := rfl
        rw [this] at hx
        exact (Option.some.injEq _ _ ▸ hx).symm
      rw [this]
      exact hsum

lemma tickValues_trace_success (outcome : Nat → SegOutcome)
    (obs postObs : List (Nat → Option Nat)) (h : anyFailed outcome = false) :
    tickValues (progressTrace outcome obs postObs) = (runTicks obs initialDownloaded).1 := by
  have htrace : progressTrace outcome obs postObs =
      ((runTicks obs initialDownloaded).1.map Event.tick) ++
        [Event.completed, Event.timerCleared, Event.aggregated] := by
    simp [progressTrace, h]
  rw [htrace]
  unfold tickValues
  rw [List.filterMap_append, List.filterMap_map]
  have h1 : ∀ l : List Nat, l.filterMap
      ((fun e =>
        match e with
        | Event.tick s => some s
        | _ => none) ∘ Event.tick) = l := by
    intro l
    induction l with
    | nil => rfl
    | cons a t ih => simpa [List.filterMap_cons] using ih
  rw [h1]
  simp [List.filterMap_cons]

/-- C6 (amended): for a successful multi-part transfer the progress
events delivered to the sink are exactly the periodic tick sums — no
final event at `bytesTransferred == bytesTotal` is appended after the
monitor stops — and, provided no observed part file ever shrinks
between ticks, the sequence of emitted values never decreases. -/
theorem multiPart_progress_events (outcome : Nat → SegOutcome)
    (obs postObs : List (Nat → Option Nat)) (h1 : anyFailed outcome = false)
    (h2 : growingFrom initialDownloaded obs = true) :
    tickValues (progressTrace outcome obs postObs) = (runTicks obs initialDownloaded).1
    ∧ nonDecreasing (tickValues (progressTrace outcome obs postObs)) = true := by
  have hvals := tickValues_trace_success outcome obs postObs h1
  refine ⟨hvals, ?_⟩
  rw [hvals]
  exact (runTicks_nonDecreasing obs initialDownloaded h2).1

def w6Outcome : Nat → SegOutcome := fun _ => .ok [9]

def w6Obs1 : Nat → Option Nat := fun _ => some 1

def w6Obs2 : Nat → Option Nat := fun _ => some 2

/-- Witness for C6 (amended): two ticks with growing observations. -/
theorem multiPart_progress_events_witness :
    anyFailed w6Outcome = false
    ∧ growingFrom initialDownloaded [w6Obs1, w6Obs2] = true
    ∧ (tickValues (progressTrace w6Outcome [w6Obs1, w6Obs2] []) =
        (runTicks [w6Obs1, w6Obs2] initialDownloaded).1
       ∧ nonDecreasing (tickValues (progressTrace w6Outcome [w6Obs1, w6Obs2] [])) = true) :=
  ⟨by decide, by decide,
    multiPart_progress_events w6Outcome [w6Obs1, w6Obs2] [] (by decide) (by decide)⟩

def cex6Outcome : Nat → SegOutcome := fun _ => .ok [1]

def cex6Obs : Nat → Option Nat := fun i => if i = 0 then some 1000 else none

/-- Counterexample to C6 as stated, on a successful transfer of
`totalSize = 16000000` bytes whose single timer tick fired while only
1000 bytes of part 0 were on disk: the delivered event sequence is
`[1000]`, so its final event does not carry
`bytesTransferred == bytesTotal` — no final full-progress event is
emitted after `clearInterval`. -/
theorem multiPart_progress_no_final_event :
    anyFailed cex6Outcome = false
    ∧ (tickValues (progressTrace cex6Outcome [cex6Obs] [])).getLast? = some 1000
    ∧ (tickValues (progressTrace cex6Outcome [cex6Obs] [])).getLast? ≠ some 16000000 := by
  refine ⟨by decide, by decide, by decide⟩

/-- C10: on a monitor tick, a part file that does not exist on disk
(`fs.existsSync` false) keeps its previous `downloaded[i]` entry — so
its contribution to the emitted sum is unchanged, never decreased —
and the entries start at 0 (`Array(PARTS).fill(0)`). -/
theorem monitor_missing_file_sticky (o : Nat → Option Nat) (d : Nat → Nat) (i : Nat)
    (h : o i = none) :
    tickUpdate o d i = d i ∧ d i ≤ tickUpdate o d i ∧ initialDownloaded i = 0 := by
  refine ⟨?_, ?_, rfl⟩ <;> simp [tickUpdate, h]

def w10Obs : Nat → Option Nat := fun _ => none

def w10Downloaded : Nat → Nat := fun _ => 3

/-- Witness for C10: a tick on which no part file exists yet. -/
theorem monitor_missing_file_sticky_witness :
    w10Obs 1 = none
    ∧ (tickUpdate w10Obs w10Downloaded 1 = w10Downloaded 1
       ∧ w10Downloaded 1 ≤ tickUpdate w10Obs w10Downloaded 1
       ∧ initialDownloaded 1 = 0) :=
  ⟨rfl, monitor_missing_file_sticky w10Obs w10Downloaded 1 rfl⟩

/-! ### Request configuration (downloadPart lines 44-60, fallback
lines 129-140)

Both call sites configure `got` with `retry: { limit: 5 }` and
`timeout: { request: 300000, connect: 60000, response: 300000,
socket: 300000 }` (milliseconds); `downloadPart` additionally sets a
fixed `Range: bytes=start-end` header.  `got` reuses the same request
options on every retry attempt, and each attempt pipes into a fresh
`fs.createWriteStream(dest)`, which truncates the file. -/

structure GotTimeout where
  request : Nat
  connect : Nat
  response : Nat
  socket : Nat
deriving DecidableEq

structure GotOptions where
  retryLimit : Nat
  timeout : GotTimeout
  rangeHeader : Option (Nat × Nat)
deriving DecidableEq

/-- The options object built by `downloadPart` (lines 45-60). -/
def downloadPartOptions (start rangeEnd : Nat) : GotOptions :=
  { retryLimit := 5
    timeout := { request := 300000, connect := 60000, response := 300000, socket := 300000 }
    rangeHeader := some (start, rangeEnd) }

/-- The options object built by the fallback branch (lines 129-140);
no `Range` header. -/
def fallbackOptions : GotOptions :=
  { retryLimit := 5
    timeout := { request := 300000, connect := 60000, response := 300000, socket := 300000 }
    rangeHeader := none }

/-- `got` keeps the same options object across retry attempts of one
request. -/
def attemptOptions (opts : GotOptions) (_attempt : Nat) : GotOptions := opts

/-- Counterexample to C8 as stated: the configured connection timeout
is 60000 ms (line 55 and line 135), not the 10 seconds the claim
states. -/
theorem timeout_config_counterexample :
    (downloadPartOptions 0 99).timeout.connect = 60000
    ∧ fallbackOptions.timeout.connect = 60000
    ∧ (downloadPartOptions 0 99).timeout.connect ≠ 10000 := by
  refine ⟨rfl, rfl, by decide⟩

/-- C8 (amended): segment downloads and the fallback share the same
retry limit of 5 and identical timeout bounds — 300 s for the total
request (and response/socket) but 60 s, not 10 s, for connection; a
segment request carries the same byte range on every retry attempt,
and each attempt rewrites the destination file from scratch
(`createWriteStream` truncates, so the last write wins). -/
theorem request_config (s e a b : Nat) (fs : FS) (dest q : String) (c1 c2 : List Int) :
    (downloadPartOptions s e).retryLimit = 5
    ∧ fallbackOptions.retryLimit = 5
    ∧ (downloadPartOptions s e).timeout = fallbackOptions.timeout
    ∧ (downloadPartOptions s e).timeout.request = 300000
    ∧ (downloadPartOptions s e).timeout.connect = 60000
    ∧ (attemptOptions (downloadPartOptions s e) a).rangeHeader = some (s, e)
    ∧ attemptOptions (downloadPartOptions s e) a = attemptOptions (downloadPartOptions s e) b
    ∧ readFile (writeFile (writeFile fs dest c1) dest c2) q =
        readFile (writeFile fs dest c2) q := by
  refine ⟨rfl, rfl, rfl, rfl, rfl, rfl, rfl, ?_⟩
  by_cases hq : q = dest
  · subst hq
    rw [readFile_writeFile_self, readFile_writeFile_self]
  · rw [readFile_writeFile_ne _ dest q c2 hq, readFile_writeFile_ne _ dest q c1 hq,
      readFile_writeFile_ne _ dest q c2 hq]
